import Mathlib

/-!
Verification development for the hashnode-lockfile-server repository
(`src/main.go`, Go 1.21). The admission-control subsystem is embedded by
porting the parts of Go's `net` package the code calls (`ParseIP`,
`ParseCIDR`, `(*IPNet).Contains`) together with `isAllowedIP`,
`IPFilterMiddleware`, the refresh goroutine, and the document-store handlers
(`PutLockfileHandler`, `GetLockfileHandler`, `initTables`) together with the
JSON codec of `LockfileContentArray` (`Value`/`Scan`).

Conventions: Go byte slices become `List Nat` (entries < 256 by construction);
Go's `nil` slice is `[]` (the code only observes length and elements);
machine strings become `List Char` / `String`; a Go `panic` reachable in the
embedded code is `Option.none`.
-/

namespace LockfileServer

/-- Go `net.IP`: a byte slice; `[]` models Go's nil IP. -/
abbrev GoIP := List Nat

/-- Constant `big` from Go `net/parse.go`: 0xFFFFFF, the cut-off for `dtoi`/`xtoi`. -/
def bigNum : Nat := 0xFFFFFF

/-- Loop of Go `net.dtoi`: decimal prefix of `s`; accumulator `n`, index `i`. -/
def dtoiLoop : List Char → Nat → Nat → Nat × Nat × Bool
  | [], n, i => if i = 0 then (0, 0, false) else (n, i, true)
  | c :: rest, n, i =>
    if '0' ≤ c ∧ c ≤ '9' then
      let n2 := n * 10 + (c.toNat - '0'.toNat)
      if n2 ≥ bigNum then (bigNum, i, false)
      else dtoiLoop rest n2 (i + 1)
    else if i = 0 then (0, 0, false) else (n, i, true)

/-- Go `net.dtoi`: returns (value, characters consumed, ok). -/
def dtoi (s : List Char) : Nat × Nat × Bool := dtoiLoop s 0 0

/-- Hexadecimal value of a character, as in Go `net.xtoi`'s three branches. -/
def hexVal (c : Char) : Option Nat :=
  if '0' ≤ c ∧ c ≤ '9' then some (c.toNat - '0'.toNat)
  else if 'a' ≤ c ∧ c ≤ 'f' then some (c.toNat - 'a'.toNat + 10)
  else if 'A' ≤ c ∧ c ≤ 'F' then some (c.toNat - 'A'.toNat + 10)
  else none

/-- Loop of Go `net.xtoi`: hexadecimal prefix of `s`. -/
def xtoiLoop : List Char → Nat → Nat → Nat × Nat × Bool
  | [], n, i => if i = 0 then (0, i, false) else (n, i, true)
  | c :: rest, n, i =>
    match hexVal c with
    | some v =>
      let n2 := n * 16 + v
      if n2 ≥ bigNum then (0, i, false)
      else xtoiLoop rest n2 (i + 1)
    | none => if i = 0 then (0, i, false) else (n, i, true)

/-- Go `net.xtoi`: returns (value, characters consumed, ok). -/
def xtoi (s : List Char) : Nat × Nat × Bool := xtoiLoop s 0 0

/-- The 12-byte IPv4-in-IPv6 marker (Go `net.v4InV6`). -/
def v4InV6 : List Nat := [0, 0, 0, 0, 0, 0, 0, 0, 0, 0, 0xff, 0xff]

/-- Go `net.IPv4`: builds the 16-byte representation of an IPv4 address. -/
def goIPv4 (a b c d : Nat) : GoIP := v4InV6 ++ [a, b, c, d]

/-- Field loop of Go `net.parseIPv4` (Go ≥ 1.17 semantics: leading zeros in an
octet are rejected). `rem` counts the fields still to read; `first` is true
for the first field (no leading dot). -/
def parseIPv4Aux : Nat → Bool → List Char → List Nat → Option (List Nat)
  | 0, _, s, acc => if s = [] then some acc else none
  | r + 1, first, s, acc =>
    if s = [] then none
    else
      let afterDot : Option (List Char) :=
        if first then some s
        else match s with
          | '.' :: rest => some rest
          | _ => none
      match afterDot with
      | none => none
      | some t =>
        let (n, c, ok) := dtoi t
        if ok = false ∨ n > 0xFF then none
        else if c > 1 ∧ t.head? = some '0' then none
        else parseIPv4Aux r false (t.drop c) (acc ++ [n])

/-- Go `net.parseIPv4`: returns the 16-byte v4-in-v6 form, or `[]` for nil. -/
def parseIPv4 (s : List Char) : GoIP :=
  match parseIPv4Aux 4 true s [] with
  | some [a, b, c, d] => goIPv4 a b c d
  | _ => []

/-- Loop of Go `net.parseIPv6`. The byte accumulator `acc` plays the array
`ip[0:i]` (so `acc.length` is Go's `i`); `ell` is the ellipsis position.
Returns the final accumulator, ellipsis and unconsumed input; `none` is Go's
`return nil` from inside the loop. The fuel only bounds the iteration count
(each iteration appends at least two bytes, so 9 is never exhausted). -/
def parseIPv6Loop : Nat → List Char → List Nat → Option Nat →
    Option (List Nat × Option Nat × List Char)
  | 0, s, acc, ell =>
    if acc.length ≥ 16 then some (acc, ell, s) else none
  | f + 1, s, acc, ell =>
    if acc.length ≥ 16 then some (acc, ell, s)
    else
      let (n, c, ok) := xtoi s
      if ok = false ∨ n > 0xFFFF then none
      else if c < s.length ∧ s.get? c = some '.' then
        if ell = none ∧ acc.length ≠ 12 then none
        else if acc.length + 4 > 16 then none
        else
          let ip4 := parseIPv4 s
          if ip4 = [] then none
          else some (acc ++ ip4.drop 12, ell, [])
      else
        let acc2 := acc ++ [n / 256, n % 256]
        let s2 := s.drop c
        match s2 with
        | [] => some (acc2, ell, [])
        | ':' :: s3 =>
          match s3 with
          | [] => none
          | ':' :: s4 =>
            if ell.isSome then none
            else if s4 = [] then some (acc2, some acc2.length, [])
            else parseIPv6Loop f s4 acc2 (some acc2.length)
          | _ => parseIPv6Loop f s3 acc2 ell
        | _ => none

/-- Post-loop processing of Go `net.parseIPv6`: reject unconsumed input,
expand the ellipsis when fewer than 16 bytes were parsed, reject a redundant
ellipsis. -/
def parseIPv6Post : Option (List Nat × Option Nat × List Char) → GoIP
  | none => []
  | some (acc, ell, rem) =>
    if rem ≠ [] then []
    else if acc.length < 16 then
      match ell with
      | none => []
      | some e => acc.take e ++ List.replicate (16 - acc.length) 0 ++ acc.drop e
    else match ell with
      | some _ => []
      | none => acc

/-- Go `net.parseIPv6`: returns the 16-byte address or `[]` for nil. -/
def parseIPv6 (s : List Char) : GoIP :=
  match s with
  | ':' :: ':' :: rest =>
    if rest = [] then List.replicate 16 0
    else parseIPv6Post (parseIPv6Loop 9 rest [] (some 0))
  | _ => parseIPv6Post (parseIPv6Loop 9 s [] none)

/-- Family scan of Go 1.21 `net.ParseIP` / `netip.ParseAddr`: the first of
'.' ':' '%' decides how the string is parsed ('%' is an immediate error). -/
def findDotColon : List Char → Option Char
  | [] => none
  | c :: rest =>
    if c = '.' then some '.'
    else if c = ':' then some ':'
    else if c = '%' then some '%'
    else findDotColon rest

/-- Go 1.21 `net.ParseIP`: 16-byte result (IPv4 is returned v4-in-v6 mapped);
`[]` for nil. Zoned addresses are rejected. -/
def parseIP (s : List Char) : GoIP :=
  match findDotColon s with
  | some '.' => parseIPv4 s
  | some ':' => parseIPv6 s
  | _ => []

/-- Byte loop of Go `net.CIDRMask`. -/
def cidrMaskAux : Nat → Nat → List Nat
  | 0, _ => []
  | l + 1, n =>
    if n ≥ 8 then 0xff :: cidrMaskAux l (n - 8)
    else (0xff - 0xff / 2 ^ n) :: cidrMaskAux l 0

/-- Go `net.CIDRMask ones bits`: `[]` for nil. -/
def cidrMask (ones bits : Nat) : List Nat :=
  if bits ≠ 32 ∧ bits ≠ 128 then []
  else if ones > bits then []
  else cidrMaskAux (bits / 8) ones

/-- Go `net.IPMask` all-0xff test used by `IP.Mask`. -/
def allFF (l : List Nat) : Bool := l.all (fun b => b = 0xff)

/-- Go `(IP).Mask`: width coercions, then byte-wise AND; `[]` for nil. -/
def ipMask (ip0 mask0 : List Nat) : GoIP :=
  let mask1 := if mask0.length = 16 ∧ ip0.length = 4 ∧ allFF (mask0.take 12)
               then mask0.drop 12 else mask0
  let ip1 := if mask1.length = 4 ∧ ip0.length = 16 ∧ ip0.take 12 = v4InV6
             then ip0.drop 12 else ip0
  if ip1.length ≠ mask1.length then []
  else List.zipWith (fun a b => a.land b) ip1 mask1

/-- Go `(IP).To4`: the 4-byte form when the address is IPv4, else `[]`. -/
def to4 (ip : List Nat) : GoIP :=
  if ip.length = 4 then ip
  else if ip.length = 16 ∧ ip.take 12 = v4InV6 then ip.drop 12
  else []

/-- Go `net.IPNet`: a network (masked base address and mask). -/
structure IPNet where
  ip : List Nat
  mask : List Nat
deriving DecidableEq

/-- Split at the first '/' (the `byteIndex(s, '/')` step of `ParseCIDR`). -/
def splitSlash : List Char → Option (List Char × List Char)
  | [] => none
  | c :: rest =>
    if c = '/' then some ([], rest)
    else match splitSlash rest with
      | none => none
      | some (a, b) => some (c :: a, b)

/-- Go 1.21 `net.ParseCIDR` (the `*IPNet` result; the code ignores the first
return value). `none` models the error return, in which case the returned
`*IPNet` is Go's nil pointer. -/
def parseCIDR (s : List Char) : Option IPNet :=
  match splitSlash s with
  | none => none
  | some (addr, maskStr) =>
    let famDat : GoIP × Nat :=
      match findDotColon addr with
      | some '.' => (parseIPv4 addr, 32)
      | some ':' => (parseIPv6 addr, 128)
      | _ => ([], 32)
    let ip := famDat.1
    let bits := famDat.2
    let (n, i, ok) := dtoi maskStr
    if ip = [] ∨ ok = false ∨ i ≠ maskStr.length ∨ n > bits then none
    else
      let m := cidrMask n bits
      some ⟨ipMask ip m, m⟩

/-- Go `net.networkNumberAndMask`; `none` is the `nil, nil` return. -/
def networkNumberAndMask (net : IPNet) : Option (List Nat × List Nat) :=
  let ipOpt : Option (List Nat) :=
    if to4 net.ip ≠ [] then some (to4 net.ip)
    else if net.ip.length = 16 then some net.ip
    else none
  match ipOpt with
  | none => none
  | some nn =>
    if net.mask.length = 4 then
      if nn.length ≠ 4 then none else some (nn, net.mask)
    else if net.mask.length = 16 then
      if nn.length = 4 then some (nn, net.mask.drop 12) else some (nn, net.mask)
    else none

/-- Go `(*IPNet).Contains` on a non-nil `IPNet`. -/
def ipNetContains (net : IPNet) (ipIn : List Nat) : Bool :=
  let nnm := (networkNumberAndMask net).getD ([], [])
  let nn := nnm.1
  let m := nnm.2
  let ip := if to4 ipIn ≠ [] then to4 ipIn else ipIn
  if ip.length ≠ nn.length then false
  else (List.zip (List.zip nn m) ip).all (fun p => p.1.1.land p.1.2 = p.2.land p.1.2)

/-- Loop of `isAllowedIP` (main.go:226-235). The error of `net.ParseCIDR` is
discarded, so a range that fails to parse leaves `ipNet` nil and the
`ipNet.Contains` call dereferences a nil pointer: that panic is `none`. -/
def isAllowedIPLoop (clientIP : GoIP) : List String → Option Bool
  | [] => some false
  | a :: rest =>
    match parseCIDR a.data with
    | none => none
    | some net =>
      if ipNetContains net clientIP then some true
      else isAllowedIPLoop clientIP rest

/-- `isAllowedIP` (main.go:226-235): `some true` = allowed, `some false` =
denied, `none` = panic on a malformed range. -/
def isAllowedIP (ip : String) (allowedIPs : List String) : Option Bool :=
  isAllowedIPLoop (parseIP ip.data) allowedIPs

/-- One range of the allowlist matches the (already parsed) client address:
the range parses and its network contains the address. -/
def rangeMatches (r : String) (clientIP : GoIP) : Bool :=
  match parseCIDR r.data with
  | none => false
  | some net => ipNetContains net clientIP

/-- `GithubMetaAPIResponse` (main.go:23-25). -/
structure GithubMetaAPIResponse where
  actions : List String
deriving DecidableEq

/-- Outcomes of the HTTP round trip inside `fetchGithubActionsIPs`
(main.go:190-208): transport error, non-200 status, body that fails to decode
(with whatever was decoded before the failure), or success. -/
inductive FetchOutcome
  | httpError (msg : String)
  | badStatus (status : String)
  | decodeError (part : GithubMetaAPIResponse) (msg : String)
  | success (resp : GithubMetaAPIResponse)

/-- `fetchGithubActionsIPs` (main.go:190-208): returns `(decodedResp, err)`.
On the transport and status error paths `decodedResp` is still the zero value
`GithubMetaAPIResponse{}`; on a decode error it holds what was decoded so far. -/
def fetchGithubActionsIPs : FetchOutcome → GithubMetaAPIResponse × Option String
  | .httpError m => (⟨[]⟩, some m)
  | .badStatus s => (⟨[]⟩, some (String.append "github api error: " s))
  | .decodeError p m => (p, some m)
  | .success r => (r, none)

/-- In-memory state the admission path depends on: the package-level variable
`githubActionsIPs` and the `allowedIPs` slice that `IPFilterMiddleware`
captured when the PUT route was registered (main.go:116). -/
structure AppState where
  githubActionsIPs : GithubMetaAPIResponse
  middlewareAllowedIPs : List String
deriving DecidableEq

/-- Wiring in `main` (main.go:105-118): after the initial blocking fetch
succeeds (a failure panics, so the served state always starts from a
successful fetch), the PUT route is registered with
`IPFilterMiddleware(githubActionsIPs.Actions)` — the argument is evaluated
once, at setup time. -/
def mainStartup (initial : GithubMetaAPIResponse) : AppState :=
  ⟨initial, initial.actions⟩

/-- One tick of the refresh goroutine (main.go:121-131). The multiple
assignment `githubActionsIPs, err = fetchGithubActionsIPs()` stores the
returned response unconditionally; when `err` is non-nil the tick logs and
continues. The middleware's captured slice is not touched. -/
def refreshTick (st : AppState) (o : FetchOutcome) : AppState :=
  { st with githubActionsIPs := (fetchGithubActionsIPs o).1 }

/-- Admission decision of `IPFilterMiddleware` (main.go:211-223) for a request
with the given client address: it consults the `allowedIPs` slice captured at
router setup. `some true` = request passes, `some false` = 403 Access denied,
`none` = panic inside `isAllowedIP`. -/
def middlewareAllows (st : AppState) (clientIP : String) : Option Bool :=
  isAllowedIP clientIP st.middlewareAllowedIPs

/-- `LockfileContent` (main.go:38-43): one post entry; all fields carry a
`binding:"required"` tag. -/
structure LockfileContent where
  id : String
  path : String
  url : String
  hash : String
deriving DecidableEq

/-- `LockfileContentArray` (main.go:66). -/
abbrev LockfileContentArray := List LockfileContent

/-- JSON values, the tree-level meaning of the bytes produced by
`json.Marshal` and consumed by `json.Unmarshal` in `Value`/`Scan`
(main.go:46-64). The `json` (not `jsonb`) column of the table stores the
marshalled text verbatim, so the tree round-trips through storage unchanged. -/
inductive Jv
  | null
  | str (s : String)
  | num (n : Int)
  | arr (xs : List Jv)
  | obj (fields : List (String × Jv))

/-- `Value` of one `LockfileContent` under `json.Marshal`: the struct fields
in declaration order, with their `json` tag names. -/
def encodeContent (c : LockfileContent) : Jv :=
  .obj [("id", .str c.id), ("path", .str c.path), ("url", .str c.url), ("hash", .str c.hash)]

/-- `Value` of a `LockfileContentArray` (main.go:46-48): `json.Marshal` of the
slice. The handler only ever stores a non-nil slice (binding rejects a null
`posts`), so the result is always an array. -/
def lockfileContentArrayValue (xs : LockfileContentArray) : Jv :=
  .arr (xs.map encodeContent)

/-- One step of `json.Unmarshal` into a `LockfileContent`: assign an object
member to the matching struct field (unknown keys are ignored; a JSON null
leaves the field untouched; a non-string value is a type error). -/
def setField (c : LockfileContent) (k : String) (v : Jv) : Option LockfileContent :=
  if k = "id" then
    match v with
    | .str s => some { c with id := s }
    | .null => some c
    | _ => none
  else if k = "path" then
    match v with
    | .str s => some { c with path := s }
    | .null => some c
    | _ => none
  else if k = "url" then
    match v with
    | .str s => some { c with url := s }
    | .null => some c
    | _ => none
  else if k = "hash" then
    match v with
    | .str s => some { c with hash := s }
    | .null => some c
    | _ => none
  else some c

/-- Fold of `json.Unmarshal` over an object's members (later duplicates
overwrite earlier ones, as in Go). -/
def decodeFields : List (String × Jv) → LockfileContent → Option LockfileContent
  | [], acc => some acc
  | (k, v) :: rest, acc =>
    match setField acc k v with
    | none => none
    | some acc2 => decodeFields rest acc2

/-- `json.Unmarshal` of one array element into a `LockfileContent` (fresh
elements start from the zero struct). -/
def decodeContent : Jv → Option LockfileContent
  | .obj fs => decodeFields fs ⟨"", "", "", ""⟩
  | .null => some ⟨"", "", "", ""⟩
  | _ => none

/-- `Scan` of a `LockfileContentArray` (main.go:51-64): `json.Unmarshal` of
the stored value. A JSON null leaves the slice nil (`[]` here); a non-array
is a type error, which `Scan` surfaces as a scan error. -/
def scanLockfileContentArray : Jv → Option LockfileContentArray
  | .null => some []
  | .arr xs => xs.mapM decodeContent
  | _ => none

/-- One row of the `lockfiles` table (schema at main.go:74-83): `rid` stands
for the generated `id` UUID, times are abstract instants (`CURRENT_TIMESTAMP`
values), `content` is the stored JSON column. -/
structure LockfileRow where
  rid : Nat
  repository_id : String
  repository_name : String
  content : Jv
  created_at : Nat
  updated_at : Nat

/-- The `lockfiles` table (the `UNIQUE` constraint on `repository_id` holds
for every state the system produces; the theorems that need it take it as a
hypothesis or preserve it). -/
abbrev Store := List LockfileRow

/-- Row lookup by `repository_id` (the `WHERE repository_id = $1` of both the
SELECT and the conflict target of the upsert). -/
def findRow (db : Store) (repoId : String) : Option LockfileRow :=
  db.find? (fun r => r.repository_id = repoId)

/-- The `NamedExec` upsert of `PutLockfileHandler` (main.go:169-180):
`INSERT ... ON CONFLICT (repository_id) DO UPDATE SET content = :content,
repository_name = :repository_name, updated_at = CURRENT_TIMESTAMP`.
`id` and `created_at` appear in neither the insert column list nor the update
list, so on conflict they keep their values and on insert they take their
defaults (`uuid_generate_v4()` = `freshId`, `CURRENT_TIMESTAMP` = `now`). -/
def upsertLockfile (db : Store) (repoId name : String) (content : Jv)
    (now freshId : Nat) : Store :=
  if (findRow db repoId).isSome then
    db.map (fun r =>
      if r.repository_id = repoId then
        { r with repository_name := name, content := content, updated_at := now }
      else r)
  else
    db ++ [{ rid := freshId, repository_id := repoId, repository_name := name,
             content := content, created_at := now, updated_at := now }]

/-- `PutLockfileRequest` (main.go:68-71). `posts = none` models a JSON null /
absent member (Go nil slice); `some []` is a present-but-empty array. -/
structure PutLockfileRequest where
  repositoryName : String
  posts : Option LockfileContentArray
deriving DecidableEq

/-- The validation `ShouldBindJSON` applies to a decoded `PutLockfileRequest`:
`binding:"required"` on a string fails exactly on the empty string, and on a
slice fails exactly on nil. Neither field has a `dive` tag, so the
`binding:"required"` tags on `LockfileContent`'s fields are never applied to
the slice's elements. -/
def bindingValidates (req : PutLockfileRequest) : Bool :=
  !(req.repositoryName == "") && req.posts.isSome

/-- Response of the PUT handler: 400 with a binding error, 500 with a database
error, or 200 success. -/
inductive PutResponse
  | badRequest
  | serverError
  | ok
deriving DecidableEq

/-- `PutLockfileHandler` (main.go:160-187): bind and validate the body, then
run the upsert. `body = none` models a request whose JSON fails to decode
(`ShouldBindJSON` also errors there). Storage faults are outside this model
(a healthy database). Returns the new table state and the response. -/
def PutLockfileHandler (db : Store) (repositoryId : String)
    (body : Option PutLockfileRequest) (now freshId : Nat) : Store × PutResponse :=
  match body with
  | none => (db, .badRequest)
  | some req =>
    if bindingValidates req then
      (upsertLockfile db repositoryId req.repositoryName
        (lockfileContentArrayValue (req.posts.getD [])) now freshId, .ok)
    else (db, .badRequest)

/-- The JSON-rendered lockfile returned by the GET handler (the `Lockfile`
struct of main.go:28-35 after sqlx scanned the row, content decoded by
`Scan`). -/
structure LockfileRecord where
  rid : Nat
  repositoryName : String
  repositoryId : String
  content : LockfileContentArray
  createdAt : Nat
  updatedAt : Nat

/-- Result of `db.Get` in `GetLockfileHandler`: a scanned row, the
`sql.ErrNoRows` case, or another error (here only a `Scan` failure; transport
faults are outside the model). -/
inductive DBGetResult
  | row (r : LockfileRecord)
  | errNoRows
  | errOther

/-- The `db.Get(&lockfile, "SELECT * FROM lockfiles WHERE repository_id = $1")`
step (main.go:146): no matching row is `sql.ErrNoRows`; a matching row is
scanned, its content column through `LockfileContentArray.Scan`. -/
def dbGetLockfile (db : Store) (repoId : String) : DBGetResult :=
  match findRow db repoId with
  | none => .errNoRows
  | some r =>
    match scanLockfileContentArray r.content with
    | none => .errOther
    | some cs =>
      .row ⟨r.rid, r.repository_name, r.repository_id, cs, r.created_at, r.updated_at⟩

/-- Response of the GET handler: 200 with the document, 200 with a null
`data` member, or 500. -/
inductive GetResponse
  | okData (rec : LockfileRecord)
  | okNull
  | serverError

/-- `GetLockfileHandler` (main.go:142-157): `sql.ErrNoRows` becomes a 200 with
`{"data": nil}`; any other error becomes a 500; a row becomes a 200 with the
document. -/
def GetLockfileHandler (db : Store) (repoId : String) : GetResponse :=
  match dbGetLockfile db repoId with
  | .errNoRows => .okNull
  | .errOther => .serverError
  | .row r => .okData r

/-- `initTables` (main.go:239-268) acting on the table state (`none` = the
table does not exist; `some rows` = it exists with those rows), given the
`GIN_MODE` environment variable. The table is dropped when it is empty, or
when it is non-empty and the mode is not "release"; afterwards
`CREATE TABLE IF NOT EXISTS` guarantees an (empty, if just dropped) table. -/
def initTables (ginMode : String) : Option Store → Option Store
  | none => some []
  | some rows =>
    if rows.isEmpty || (!rows.isEmpty && !(ginMode == "release")) then some []
    else some rows

/-- Modelled from the spec: the validation rule as C4.1's sentence words it
("repositoryName and every field of every entry are required non-empty
strings; an empty entry list is permitted"). Kept separate from
`bindingValidates` (the code's rule) so the two can be compared. -/
def specValidationAccepts (req : PutLockfileRequest) : Bool :=
  !(req.repositoryName == "") &&
  match req.posts with
  | none => false
  | some xs => xs.all (fun c =>
      !(c.id == "") && !(c.path == "") && !(c.url == "") && !(c.hash == ""))

/-- A concrete stored document used by several concrete evaluations. -/
def sampleRow : LockfileRow :=
  ⟨1, "repo-1", "My Repo", lockfileContentArrayValue [⟨"a", "/p", "h", "h1"⟩], 0, 0⟩

/-- C1: the PUT middleware was built once with the startup snapshot, so after
a successful refresh replaces `githubActionsIPs` with a new range set R, the
admission decision still evaluates against the startup ranges and differs
from `isAllowedIP` over R: with startup set {10.0.0.0/8} refreshed to
{192.168.0.0/16}, the caller 192.168.1.1 is denied although R allows it. -/
theorem middleware_ignores_refreshed_snapshot :
    (refreshTick (mainStartup ⟨["10.0.0.0/8"]⟩)
        (.success ⟨["192.168.0.0/16"]⟩)).githubActionsIPs.actions
      = ["192.168.0.0/16"] ∧
    middlewareAllows
        (refreshTick (mainStartup ⟨["10.0.0.0/8"]⟩) (.success ⟨["192.168.0.0/16"]⟩))
        "192.168.1.1" = some false ∧
    isAllowedIP "192.168.1.1"
        (refreshTick (mainStartup ⟨["10.0.0.0/8"]⟩)
          (.success ⟨["192.168.0.0/16"]⟩)).githubActionsIPs.actions
      = some true := by
  decide

/-- C2: a tick of the refresh loop whose fetch fails does not retain the
previous snapshot: the multiple assignment stores the zero-value response, so
the snapshot {10.0.0.0/8} becomes the empty set and 10.1.2.3, allowed against
the old snapshot, is no longer allowed against the new one. -/
theorem failed_refresh_clears_snapshot :
    (mainStartup ⟨["10.0.0.0/8"]⟩).githubActionsIPs.actions = ["10.0.0.0/8"] ∧
    (refreshTick (mainStartup ⟨["10.0.0.0/8"]⟩)
        (.httpError "connection refused")).githubActionsIPs.actions = [] ∧
    isAllowedIP "10.1.2.3" (mainStartup ⟨["10.0.0.0/8"]⟩).githubActionsIPs.actions
      = some true ∧
    isAllowedIP "10.1.2.3"
        (refreshTick (mainStartup ⟨["10.0.0.0/8"]⟩)
          (.httpError "connection refused")).githubActionsIPs.actions
      = some false := by
  decide

/-- C3 counterexample: on the set containing only the malformed range
"not-a-cidr", the admission check for 10.0.0.1 panics (`none`) instead of
completing, so it differs from the check against the set with the malformed
range removed, which returns a normal denial. -/
theorem malformed_range_panics_concrete :
    isAllowedIP "10.0.0.1" ["not-a-cidr"] = none ∧
    isAllowedIP "10.0.0.1" [] = some false ∧
    isAllowedIP "10.0.0.1" ["not-a-cidr"] ≠ isAllowedIP "10.0.0.1" [] := by
  decide

/-- C3 amended: a malformed range contributes no match only as long as it is
never reached; when every range before it is well-formed and fails to match
the caller, the loop reaches the malformed range and the admission check
fails with a nil-pointer dereference (`none`) rather than skipping it. -/
theorem malformed_range_reached_panics (ip : String) (pre post : List String)
    (bad : String)
    (hpre : ∀ r ∈ pre, (parseCIDR r.data).isSome ∧
      rangeMatches r (parseIP ip.data) = false)
    (hbad : parseCIDR bad.data = none) :
    isAllowedIP ip (pre ++ bad :: post) = none := by
  unfold isAllowedIP
  induction pre with
  | nil =>
    simp only [List.nil_append, isAllowedIPLoop, hbad]
  | cons r rest ih =>
    obtain ⟨hsome, hmatch⟩ := hpre r (List.mem_cons_self r rest)
    obtain ⟨net, hnet⟩ := Option.isSome_iff_exists.mp hsome
    have hcont : ipNetContains net (parseIP ip.data) = false := by
      unfold rangeMatches at hmatch
      rw [hnet] at hmatch
      exact hmatch
    simp only [List.cons_append, isAllowedIPLoop, hnet, hcont, Bool.false_eq_true,
      if_false]
    exact ih (fun r2 h2 => hpre r2 (List.mem_cons_of_mem r h2))

/-- C3 amended, witness: the caller 10.0.0.1 fails to match the well-formed
range 192.168.0.0/16, reaches "not-a-cidr" and the check panics. -/
theorem malformed_range_reached_panics_witness :
    isAllowedIP "10.0.0.1" (["192.168.0.0/16"] ++ "not-a-cidr" :: ["10.0.0.0/8"])
      = none :=
  malformed_range_reached_panics "10.0.0.1" ["192.168.0.0/16"] ["10.0.0.0/8"]
    "not-a-cidr" (by decide) (by decide)

/-- C5 counterexample: the payload with repositoryName "my-repo" and one
entry whose id, path, url and hash are all empty passes binding validation
(no `dive` tag, so entry fields are never checked), is accepted by the PUT
handler, and reaches storage — while the claimed validation rule rejects it. -/
theorem entry_fields_not_validated :
    bindingValidates ⟨"my-repo", some [⟨"", "", "", ""⟩]⟩ = true ∧
    specValidationAccepts ⟨"my-repo", some [⟨"", "", "", ""⟩]⟩ = false ∧
    (PutLockfileHandler [] "repo-1" (some ⟨"my-repo", some [⟨"", "", "", ""⟩]⟩) 5 1).2
      = .ok ∧
    ((PutLockfileHandler [] "repo-1"
        (some ⟨"my-repo", some [⟨"", "", "", ""⟩]⟩) 5 1).1).length = 1 := by
  decide

/-- C5 amended: a write payload is accepted by validation iff repositoryName
is a non-empty string and the entries list is present (non-null) — entry
fields are not validated; and whenever binding fails (validation failure or
undecodable JSON), the handler leaves the store untouched and answers 400. -/
theorem binding_accepts_iff_toplevel_present (req : PutLockfileRequest)
    (db : Store) (repoId : String) (now fid : Nat) :
    (bindingValidates req = true ↔ req.repositoryName ≠ "" ∧ req.posts ≠ none) ∧
    (bindingValidates req = false →
      PutLockfileHandler db repoId (some req) now fid = (db, .badRequest)) ∧
    PutLockfileHandler db repoId none now fid = (db, .badRequest) := by
  refine ⟨?_, ?_, rfl⟩
  · unfold bindingValidates
    constructor
    · intro h
      have h1 := (Bool.and_eq_true _ _).mp h
      refine ⟨?_, ?_⟩
      · intro hs
        rw [hs] at h1
        simp at h1
      · intro hp
        rw [hp] at h1
        simp [Option.isSome] at h1
    · rintro ⟨hs, hp⟩
      have h1 : (req.repositoryName == "") = false := by
        exact beq_eq_false_iff_ne.mpr hs
      have h2 : req.posts.isSome = true := by
        cases hq : req.posts with
        | none => exact absurd hq hp
        | some v => rfl
      rw [h1, h2]
      rfl
  · intro h
    simp [PutLockfileHandler, h]

/-- C5 amended, witness: the payload with empty repositoryName is rejected
and the store is untouched. -/
theorem binding_accepts_iff_toplevel_present_witness :
    (bindingValidates ⟨"", some []⟩ = true ↔
      ("" : String) ≠ "" ∧ (some [] : Option LockfileContentArray) ≠ none) ∧
    PutLockfileHandler [sampleRow] "repo-1" (some ⟨"", some []⟩) 3 9
      = ([sampleRow], .badRequest) :=
  ⟨(binding_accepts_iff_toplevel_present ⟨"", some []⟩ [sampleRow] "repo-1" 3 9).1,
    (binding_accepts_iff_toplevel_present ⟨"", some []⟩ [sampleRow] "repo-1" 3 9).2.1
      (by decide)⟩

/-- C8: a lookup for a repositoryId with no stored row answers the explicit
"absent" outcome (200 with a null data member), never the fault outcome. -/
theorem get_absent_is_not_a_fault (db : Store) (repoId : String)
    (h : findRow db repoId = none) :
    GetLockfileHandler db repoId = .okNull ∧
    GetLockfileHandler db repoId ≠ .serverError := by
  have hg : GetLockfileHandler db repoId = .okNull := by
    unfold GetLockfileHandler dbGetLockfile
    rw [h]
  exact ⟨hg, by rw [hg]; intro hc; cases hc⟩

/-- C8 witness: the empty store has no row for "repo-1". -/
theorem get_absent_is_not_a_fault_witness :
    GetLockfileHandler [] "repo-1" = .okNull ∧
    GetLockfileHandler [] "repo-1" ≠ .serverError :=
  get_absent_is_not_a_fault [] "repo-1" rfl

/-- C9 counterexample: startup initialization deletes existing documents:
with GIN_MODE unset ("debug" ≠ "release"), `initTables` on a table holding
the document for "repo-1" drops the table and recreates it empty, so the
document no longer exists. -/
theorem init_tables_deletes_documents :
    findRow [sampleRow] "repo-1" = some sampleRow ∧
    initTables "debug" (some [sampleRow]) = some [] ∧
    findRow [] "repo-1" = none := by
  exact ⟨rfl, rfl, rfl⟩

/-- C9 amended: the request handlers never delete a document — every stored
row survives any PUT with its id, repository_id and created_at intact (GET
does not write at all) — but startup `initTables` preserves a non-empty table
only in "release" mode (it drops the table when the table is empty or the
mode is anything else). -/
theorem handlers_never_delete (db : Store) (repoId : String)
    (body : Option PutLockfileRequest) (now fid : Nat) (row : LockfileRow)
    (hmem : row ∈ db) :
    (∃ row2, row2 ∈ (PutLockfileHandler db repoId body now fid).1 ∧
      row2.repository_id = row.repository_id ∧ row2.rid = row.rid ∧
      row2.created_at = row.created_at) ∧
    (∀ rows : Store, rows ≠ [] → initTables "release" (some rows) = some rows) := by
  constructor
  · unfold PutLockfileHandler
    cases body with
    | none => exact ⟨row, hmem, rfl, rfl, rfl⟩
    | some req =>
      by_cases hb : bindingValidates req
      · simp only [hb, if_true]
        unfold upsertLockfile
        by_cases hf : (findRow db repoId).isSome
        · simp only [hf, if_true]
          refine ⟨_, List.mem_map_of_mem _ hmem, ?_⟩
          by_cases hid : row.repository_id = repoId
          · rw [if_pos hid]
            exact ⟨rfl, rfl, rfl⟩
          · rw [if_neg hid]
            exact ⟨rfl, rfl, rfl⟩
        · simp only [hf, if_false]
          exact ⟨row, List.mem_append_left _ hmem, rfl, rfl, rfl⟩
      · simp only [hb, if_false]
        exact ⟨row, hmem, rfl, rfl, rfl⟩
  · intro rows hrows
    have he : rows.isEmpty = false := by
      cases rows with
      | nil => exact absurd rfl hrows
      | cons a l => rfl
    simp [initTables, he]

/-- A successful lookup returns a row carrying the looked-up identifier. -/
theorem findRow_some_id (db : Store) (repoId : String) (row : LockfileRow)
    (h : findRow db repoId = some row) : row.repository_id = repoId := by
  unfold findRow at h
  have hp := List.find?_some h
  exact of_decide_eq_true hp

/-- Updating the matching rows in place is visible to a subsequent lookup,
provided the update keeps the identifier column. -/
theorem findRow_map_update (db : Store) (repoId : String)
    (g : LockfileRow → LockfileRow) (hg : ∀ r, (g r).repository_id = r.repository_id)
    (row : LockfileRow) (h : findRow db repoId = some row) :
    findRow (db.map (fun r => if r.repository_id = repoId then g r else r)) repoId
      = some (g row) := by
  unfold findRow at *
  induction db with
  | nil => simp at h
  | cons a rest ih =>
    by_cases ha : a.repository_id = repoId
    · rw [List.find?_cons_of_pos _ (by simp [ha])] at h
      obtain rfl : a = row := Option.some.inj h
      rw [List.map_cons, if_pos ha, List.find?_cons_of_pos _ (by simp [hg, ha])]
    · rw [List.find?_cons_of_neg _ (by simp [ha])] at h
      rw [List.map_cons, if_neg ha, List.find?_cons_of_neg _ (by simp [ha])]
      exact ih h

/-- A lookup that missed the whole table finds a row appended at the end when
that row carries the identifier. -/
theorem findRow_append_new (db : Store) (repoId : String) (row : LockfileRow)
    (h : findRow db repoId = none) (hr : row.repository_id = repoId) :
    findRow (db ++ [row]) repoId = some row := by
  unfold findRow at *
  induction db with
  | nil =>
    rw [List.nil_append, List.find?_cons_of_pos _ (by simp [hr])]
  | cons a rest ih =>
    by_cases ha : a.repository_id = repoId
    · rw [List.find?_cons_of_pos _ (by simp [ha])] at h
      cases h
    · rw [List.find?_cons_of_neg _ (by simp [ha])] at h
      rw [List.cons_append, List.find?_cons_of_neg _ (by simp [ha])]
      exact ih h

/-- Shape of the row a lookup finds right after the upsert ran for its
identifier: the submitted name and content under the looked-up key, freshly
timestamped. -/
theorem findRow_after_upsert (db : Store) (repoId name : String) (content : Jv)
    (now fid : Nat) :
    ∃ row2, findRow (upsertLockfile db repoId name content now fid) repoId
        = some row2 ∧
      row2.repository_id = repoId ∧ row2.repository_name = name ∧
      row2.content = content ∧ row2.updated_at = now := by
  unfold upsertLockfile
  cases hf : findRow db repoId with
  | none =>
    simp only [hf, Option.isSome_none, Bool.false_eq_true, if_false]
    exact ⟨_, findRow_append_new db repoId _ hf rfl, rfl, rfl, rfl, rfl⟩
  | some row =>
    simp only [hf, Option.isSome_some, if_true]
    exact ⟨_, findRow_map_update db repoId
        (fun r => { r with repository_name := name, content := content,
                           updated_at := now })
        (fun r => rfl) row hf,
      findRow_some_id db repoId row hf, rfl, rfl, rfl⟩

/-- C6: a successful PUT for an identifier that already has a document
replaces repositoryName, content and updatedAt, preserves id and createdAt,
and — CURRENT_TIMESTAMP of the update being later than the stored updatedAt —
strictly increases updatedAt. -/
theorem put_replaces_but_preserves_identity (db : Store) (repoId : String)
    (req : PutLockfileRequest) (row : LockfileRow) (t2 fid : Nat)
    (hb : bindingValidates req = true)
    (hrow : findRow db repoId = some row)
    (ht : row.updated_at < t2) :
    ∃ row2,
      findRow (PutLockfileHandler db repoId (some req) t2 fid).1 repoId
        = some row2 ∧
      row2.rid = row.rid ∧ row2.created_at = row.created_at ∧
      row2.repository_name = req.repositoryName ∧
      row2.content = lockfileContentArrayValue (req.posts.getD []) ∧
      row2.updated_at = t2 ∧ row.updated_at < row2.updated_at := by
  simp only [PutLockfileHandler, hb, if_true]
  unfold upsertLockfile
  simp only [hrow, Option.isSome_some, if_true]
  exact ⟨_, findRow_map_update db repoId
      (fun r => { r with repository_name := req.repositoryName,
                         content := lockfileContentArrayValue (req.posts.getD []),
                         updated_at := t2 })
      (fun r => rfl) row hrow,
    rfl, rfl, rfl, rfl, rfl, ht⟩

/-- C6 witness: overwriting the stored document for "repo-1" at time 5 keeps
id 1 and createdAt 0 and bumps updatedAt from 0 to 5. -/
theorem put_replaces_but_preserves_identity_witness :
    bindingValidates ⟨"New Name", some [⟨"b", "/q", "u2", "h2"⟩]⟩ = true ∧
    sampleRow.updated_at < 5 ∧
    ∃ row2,
      findRow (PutLockfileHandler [sampleRow] "repo-1"
          (some ⟨"New Name", some [⟨"b", "/q", "u2", "h2"⟩]⟩) 5 9).1 "repo-1"
        = some row2 ∧
      row2.rid = sampleRow.rid ∧ row2.created_at = sampleRow.created_at ∧
      row2.repository_name = "New Name" ∧
      row2.content = lockfileContentArrayValue
        ((some [(⟨"b", "/q", "u2", "h2"⟩ : LockfileContent)]).getD []) ∧
      row2.updated_at = 5 ∧ sampleRow.updated_at < row2.updated_at :=
  ⟨by decide, by decide,
    put_replaces_but_preserves_identity [sampleRow] "repo-1"
      ⟨"New Name", some [⟨"b", "/q", "u2", "h2"⟩]⟩ sampleRow 5 9
      (by decide) rfl (by decide)⟩

/-- Unmarshal of the marshalled form of one entry recovers the entry. -/
theorem decodeContent_encodeContent (c : LockfileContent) :
    decodeContent (encodeContent c) = some c := by
  cases c
  rfl

/-- Element-wise form of the codec round trip. -/
theorem mapM_decode_encode (xs : List LockfileContent) :
    (xs.map encodeContent).mapM decodeContent = some xs := by
  induction xs with
  | nil => rfl
  | cons c rest ih =>
    simp only [List.map_cons, List.mapM_cons, decodeContent_encodeContent, ih,
      Option.pure_def, Option.bind_eq_bind, Option.some_bind]

/-- The Scan direction of the codec undoes the Value direction on every entry
list (lossless serialization). -/
theorem scan_value_roundtrip (xs : LockfileContentArray) :
    scanLockfileContentArray (lockfileContentArrayValue xs) = some xs :=
  mapM_decode_encode xs

/-- C7: a PUT followed by a GET for the same identifier with no intervening
write returns a document whose repositoryName and entries equal exactly what
was submitted. -/
theorem put_get_returns_submitted (db : Store) (repoId : String)
    (req : PutLockfileRequest) (posts : LockfileContentArray) (now fid : Nat)
    (hb : bindingValidates req = true) (hp : req.posts = some posts) :
    ∃ rec,
      GetLockfileHandler (PutLockfileHandler db repoId (some req) now fid).1 repoId
        = .okData rec ∧
      rec.repositoryName = req.repositoryName ∧ rec.repositoryId = repoId ∧
      rec.content = posts := by
  simp only [PutLockfileHandler, hb, if_true]
  obtain ⟨row2, hfound, hid, hname, hcontent, hupd⟩ :=
    findRow_after_upsert db repoId req.repositoryName
      (lockfileContentArrayValue (req.posts.getD [])) now fid
  rw [hp] at hcontent
  simp only [Option.getD_some] at hcontent
  unfold GetLockfileHandler dbGetLockfile
  simp only [hfound, hcontent, scan_value_roundtrip]
  exact ⟨_, rfl, hname, hid, rfl⟩

/-- C7 witness: storing one entry for "repo-1" in the empty store and reading
it back returns the identical name and entry list. -/
theorem put_get_returns_submitted_witness :
    bindingValidates ⟨"My Repo", some [⟨"a", "/p", "u1", "h1"⟩]⟩ = true ∧
    ∃ rec,
      GetLockfileHandler (PutLockfileHandler [] "repo-1"
          (some ⟨"My Repo", some [⟨"a", "/p", "u1", "h1"⟩]⟩) 1 4).1 "repo-1"
        = .okData rec ∧
      rec.repositoryName = "My Repo" ∧ rec.repositoryId = "repo-1" ∧
      rec.content = [⟨"a", "/p", "u1", "h1"⟩] :=
  ⟨by decide,
    put_get_returns_submitted [] "repo-1" ⟨"My Repo", some [⟨"a", "/p", "u1", "h1"⟩]⟩
      [⟨"a", "/p", "u1", "h1"⟩] 1 4 (by decide) rfl⟩

/-- C9 amended, witness: a PUT for another repository keeps the stored
document, and release-mode startup keeps a non-empty table. -/
theorem handlers_never_delete_witness :
    (∃ row2, row2 ∈ (PutLockfileHandler [sampleRow] "repo-2"
        (some ⟨"Other", some []⟩) 7 2).1 ∧
      row2.repository_id = sampleRow.repository_id ∧ row2.rid = sampleRow.rid ∧
      row2.created_at = sampleRow.created_at) ∧
    (∀ rows : Store, rows ≠ [] → initTables "release" (some rows) = some rows) :=
  handlers_never_delete [sampleRow] "repo-2" (some ⟨"Other", some []⟩) 7 2 sampleRow
    (List.mem_singleton.mpr rfl)

/-- The byte loop of `CIDRMask` produces exactly the requested number of
bytes. -/
theorem cidrMaskAux_length (l : Nat) : ∀ n : Nat, (cidrMaskAux l n).length = l := by
  induction l with
  | zero => intro n; rfl
  | succ k ih =>
    intro n
    unfold cidrMaskAux
    split
    · simp [ih]
    · simp [ih]

/-- A non-nil `parseIPv4` result is the v4-in-v6 form of four octets. -/
theorem parseIPv4_shape (s : List Char) :
    parseIPv4 s = [] ∨ ∃ a b c d, parseIPv4 s = goIPv4 a b c d := by
  unfold parseIPv4
  split
  · exact Or.inr ⟨_, _, _, _, rfl⟩
  · exact Or.inl rfl

/-- Invariant of the `parseIPv6` loop: starting from an even-length
accumulator of at most 16 bytes whose ellipsis mark (if any) lies inside it,
a normal exit yields at most 16 bytes with the ellipsis mark still inside. -/
theorem parseIPv6Loop_inv : ∀ (fuel : Nat) (s : List Char) (acc : List Nat)
    (ell : Option Nat) (acc2 : List Nat) (ell2 : Option Nat) (rem : List Char),
    parseIPv6Loop fuel s acc ell = some (acc2, ell2, rem) →
    acc.length % 2 = 0 → acc.length ≤ 16 →
    (∀ e, ell = some e → e ≤ acc.length) →
    acc2.length ≤ 16 ∧ ∀ e, ell2 = some e → e ≤ acc2.length := by
  intro fuel
  induction fuel with
  | zero =>
    intro s acc ell acc2 ell2 rem hres hpar hle hell
    unfold parseIPv6Loop at hres
    split at hres
    · simp only [Option.some.injEq, Prod.mk.injEq] at hres
      obtain ⟨rfl, rfl, rfl⟩ := hres
      exact ⟨hle, hell⟩
    · cases hres
  | succ f ih =>
    intro s acc ell acc2 ell2 rem hres hpar hle hell
    unfold parseIPv6Loop at hres
    split at hres
    · simp only [Option.some.injEq, Prod.mk.injEq] at hres
      obtain ⟨rfl, rfl, rfl⟩ := hres
      exact ⟨hle, hell⟩
    · rename_i hlt
      have hlt16 : acc.length < 16 := by omega
      rcases hxt : xtoi s with ⟨n, c, ok⟩
      simp only [hxt] at hres
      split at hres
      · cases hres
      · split at hres
        · -- trailing IPv4 branch
          split at hres
          · cases hres
          · split at hres
            · cases hres
            · rename_i hroom
              split at hres
              · cases hres
              · rename_i hip4
                rcases parseIPv4_shape s with hnil | ⟨a, b, c4, d, hv4⟩
                · exact absurd hnil hip4
                · simp only [Option.some.injEq, Prod.mk.injEq] at hres
                  obtain ⟨rfl, rfl, rfl⟩ := hres
                  have hd4 : ((parseIPv4 s).drop 12).length = 4 := by
                    rw [hv4]; rfl
                  constructor
                  · rw [List.length_append, hd4]; omega
                  · intro e he
                    have := hell e he
                    rw [List.length_append]; omega
        · -- hex chunk branch
          have hlen2 : (acc ++ [n / 256, n % 256]).length = acc.length + 2 := by
            simp
          split at hres
          · -- input exhausted: break
            simp only [Option.some.injEq, Prod.mk.injEq] at hres
            obtain ⟨rfl, rfl, rfl⟩ := hres
            constructor
            · rw [hlen2]; omega
            · intro e he
              have := hell e he
              rw [hlen2]; omega
          · -- leading colon
            split at hres
            · cases hres
            · split at hres
              · cases hres
              · split at hres
                · -- ellipsis at very end: break
                  simp only [Option.some.injEq, Prod.mk.injEq] at hres
                  obtain ⟨rfl, rfl, rfl⟩ := hres
                  constructor
                  · rw [hlen2]; omega
                  · intro e he
                    cases he
                    exact Nat.le_refl _
                · -- ellipsis then more input: recurse
                  refine ih _ _ _ _ _ _ hres ?_ ?_ ?_
                  · rw [hlen2]; omega
                  · rw [hlen2]; omega
                  · intro e he
                    cases he
                    exact Nat.le_refl _
            · -- plain colon then more input: recurse
              refine ih _ _ _ _ _ _ hres ?_ ?_ ?_
              · rw [hlen2]; omega
              · rw [hlen2]; omega
              · intro e he
                have := hell e he
                rw [hlen2]; omega
          · cases hres

/-- Post-processed loop results are nil or exactly 16 bytes long. -/
theorem parseIPv6Post_length (fuel : Nat) (s : List Char) (acc : List Nat)
    (ell : Option Nat) (hpar : acc.length % 2 = 0) (hle : acc.length ≤ 16)
    (hell : ∀ e, ell = some e → e ≤ acc.length) :
    parseIPv6Post (parseIPv6Loop fuel s acc ell) = [] ∨
    (parseIPv6Post (parseIPv6Loop fuel s acc ell)).length = 16 := by
  cases hres : parseIPv6Loop fuel s acc ell with
  | none => exact Or.inl rfl
  | some t =>
    obtain ⟨acc2, ell2, rem⟩ := t
    obtain ⟨h16, he2⟩ :=
      parseIPv6Loop_inv fuel s acc ell acc2 ell2 rem hres hpar hle hell
    simp only [parseIPv6Post]
    split
    · exact Or.inl rfl
    · rename_i hrem
      split
      · rename_i hshort
        cases ell2 with
        | none => exact Or.inl rfl
        | some e =>
          right
          have hee := he2 e rfl
          simp only [List.length_append, List.length_take, List.length_replicate,
            List.length_drop]
          omega
      · rename_i hfull
        cases ell2 with
        | some e => exact Or.inl rfl
        | none =>
          right
          show acc2.length = 16
          omega

/-- A non-nil `parseIPv6` result is 16 bytes long. -/
theorem parseIPv6_length (s : List Char) :
    parseIPv6 s = [] ∨ (parseIPv6 s).length = 16 := by
  unfold parseIPv6
  split
  · split
    · right; simp
    · exact parseIPv6Post_length 9 _ [] (some 0) rfl (by simp)
        (fun e he => by cases he; exact Nat.le_refl 0)
  · exact parseIPv6Post_length 9 s [] none rfl (by simp) (fun e he => by cases he)

/-- `to4` of the empty (nil) address is nil. -/
theorem to4_nil : to4 [] = [] := rfl

/-- `to4` of a 16-byte address is nil or 4 bytes long. -/
theorem to4_of_length16 (l : List Nat) (h : l.length = 16) :
    to4 l = [] ∨ (to4 l).length = 4 := by
  unfold to4
  rw [if_neg (by omega)]
  split
  · right; simp [h]
  · left; rfl

/-- On a network whose address and mask widths agree (both IPv4 or both
IPv6), `networkNumberAndMask` succeeds with a non-nil network number. -/
theorem networkNumberAndMask_some (net : IPNet)
    (hcase : (net.ip.length = 4 ∧ net.mask.length = 4) ∨
      (net.ip.length = 16 ∧ net.mask.length = 16)) :
    ∃ nn m, networkNumberAndMask net = some (nn, m) ∧ 0 < nn.length := by
  rcases hcase with ⟨hip, hm⟩ | ⟨hip, hm⟩
  · have hne : net.ip ≠ [] := by intro hc; rw [hc] at hip; cases hip
    have ht : to4 net.ip = net.ip := by unfold to4; rw [if_pos hip]
    refine ⟨net.ip, net.mask, ?_, by omega⟩
    simp [networkNumberAndMask, ht, hne, hip, hm]
  · rcases to4_of_length16 net.ip hip with h0 | h4
    · have hneg : ¬ to4 net.ip ≠ [] := by simp [h0]
      refine ⟨net.ip, net.mask, ?_, by omega⟩
      simp [networkNumberAndMask, h0, hip, hm]
    · have hne : to4 net.ip ≠ [] := by intro hc; rw [hc] at h4; cases h4
      refine ⟨to4 net.ip, net.mask.drop 12, ?_, by omega⟩
      simp [networkNumberAndMask, hne, h4, hip, hm]

/-- The three possible values of the family dispatch inside `parseCIDR`. -/
theorem parseCIDR_famDat (addr : List Char) :
    (match findDotColon addr with
      | some '.' => (parseIPv4 addr, 32)
      | some ':' => (parseIPv6 addr, 128)
      | _ => (([] : GoIP), 32))
      = (parseIPv4 addr, 32) ∨
    (match findDotColon addr with
      | some '.' => (parseIPv4 addr, 32)
      | some ':' => (parseIPv6 addr, 128)
      | _ => (([] : GoIP), 32))
      = (parseIPv6 addr, 128) ∨
    (match findDotColon addr with
      | some '.' => (parseIPv4 addr, 32)
      | some ':' => (parseIPv6 addr, 128)
      | _ => (([] : GoIP), 32))
      = (([] : GoIP), 32) := by
  split
  · exact Or.inl rfl
  · exact Or.inr (Or.inl rfl)
  · exact Or.inr (Or.inr rfl)

/-- Width of `cidrMask` for the IPv4 family. -/
theorem cidrMask_length_32 (n : Nat) (hn : n ≤ 32) : (cidrMask n 32).length = 4 := by
  unfold cidrMask
  rw [if_neg (by simp), if_neg (by omega)]
  exact cidrMaskAux_length 4 n

/-- Width of `cidrMask` for the IPv6 family. -/
theorem cidrMask_length_128 (n : Nat) (hn : n ≤ 128) :
    (cidrMask n 128).length = 16 := by
  unfold cidrMask
  rw [if_neg (by simp), if_neg (by omega)]
  exact cidrMaskAux_length 16 n

/-- Every network produced by `ParseCIDR` has a non-nil network number, so
`Contains` on it is a genuine masked comparison. -/
theorem parseCIDR_networkNumber (s : List Char) (net : IPNet)
    (h : parseCIDR s = some net) :
    ∃ nn m, networkNumberAndMask net = some (nn, m) ∧ 0 < nn.length := by
  unfold parseCIDR at h
  cases hss : splitSlash s with
  | none => rw [hss] at h; cases h
  | some p =>
    obtain ⟨addr, maskStr⟩ := p
    simp only [hss] at h
    rcases hdt : dtoi maskStr with ⟨n, i, ok⟩
    simp only [hdt] at h
    rcases parseCIDR_famDat addr with hf | hf | hf <;> simp only [hf] at h
    · -- '.' family
      split at h
      · cases h
      · rename_i hguard
        push_neg at hguard
        obtain ⟨hip, hok, hlen, hn⟩ := hguard
        simp only [Option.some.injEq] at h
        subst h
        have hm4 : (cidrMask n 32).length = 4 := cidrMask_length_32 n (by omega)
        rcases parseIPv4_shape addr with hnil | ⟨a, b, c, d, hv4⟩
        · exact absurd hnil hip
        · have hipm : (ipMask (parseIPv4 addr) (cidrMask n 32)).length = 4 := by
            rw [hv4]
            simp [ipMask, goIPv4, v4InV6, hm4]
          exact networkNumberAndMask_some _ (Or.inl ⟨hipm, hm4⟩)
    · -- ':' family
      split at h
      · cases h
      · rename_i hguard
        push_neg at hguard
        obtain ⟨hip, hok, hlen, hn⟩ := hguard
        simp only [Option.some.injEq] at h
        subst h
        have hm16 : (cidrMask n 128).length = 16 := cidrMask_length_128 n (by omega)
        rcases parseIPv6_length addr with hnil | h6
        · exact absurd hnil hip
        · have hipm : (ipMask (parseIPv6 addr) (cidrMask n 128)).length = 16 := by
            simp [ipMask, h6, hm16]
          exact networkNumberAndMask_some _ (Or.inr ⟨hipm, hm16⟩)
    · -- no family: the guard rejects the nil address
      split at h
      · cases h
      · rename_i hguard
        exact absurd (Or.inl trivial) hguard

/-- Membership checks of a well-formed network against the nil client
address always fail. -/
theorem ipNetContains_nil (net : IPNet) (nn m : List Nat)
    (hnnm : networkNumberAndMask net = some (nn, m)) (hpos : 0 < nn.length) :
    ipNetContains net [] = false := by
  have h0 : (0 : Nat) ≠ nn.length := by omega
  simp [ipNetContains, hnnm, to4_nil, h0]

/-- On a list of well-formed ranges the admission loop never panics and
decides exactly the any-range-matches predicate. -/
theorem isAllowedIPLoop_wf (cip : GoIP) (rs : List String)
    (h : ∀ r ∈ rs, (parseCIDR r.data).isSome) :
    isAllowedIPLoop cip rs = some (rs.any (fun r => rangeMatches r cip)) := by
  induction rs with
  | nil => rfl
  | cons r rest ih =>
    obtain ⟨net, hnet⟩ :=
      Option.isSome_iff_exists.mp (h r (List.mem_cons_self r rest))
    have hrm : rangeMatches r cip = ipNetContains net cip := by
      unfold rangeMatches
      rw [hnet]
    simp only [isAllowedIPLoop, hnet, List.any_cons, hrm]
    cases hc : ipNetContains net cip with
    | true => rfl
    | false =>
      simp only [Bool.false_eq_true, if_false, Bool.false_or]
      exact ih (fun r2 h2 => h r2 (List.mem_cons_of_mem r h2))

/-- C4: on a range set whose ranges are all well-formed CIDR blocks, the
admission check completes (no panic) and allows the caller iff the caller's
address parses and falls within at least one range; in particular an
unparsable caller is denied against every such set and every caller is
denied against the empty set. -/
theorem allowlist_decides_membership (ip : String) (rs : List String)
    (h : ∀ r ∈ rs, (parseCIDR r.data).isSome) :
    (isAllowedIP ip rs).isSome ∧
    (isAllowedIP ip rs = some true ↔
      parseIP ip.data ≠ [] ∧ ∃ r ∈ rs, rangeMatches r (parseIP ip.data) = true) := by
  have hloop := isAllowedIPLoop_wf (parseIP ip.data) rs h
  unfold isAllowedIP
  rw [hloop]
  refine ⟨rfl, ?_, ?_⟩
  · intro ht
    have hany : rs.any (fun r => rangeMatches r (parseIP ip.data)) = true :=
      Option.some.inj ht
    obtain ⟨r, hr, hm⟩ := List.any_eq_true.mp hany
    refine ⟨?_, r, hr, hm⟩
    intro hnil
    obtain ⟨net, hnet⟩ := Option.isSome_iff_exists.mp (h r hr)
    obtain ⟨nn, m, hnnm, hpos⟩ := parseCIDR_networkNumber _ _ hnet
    have hfalse : rangeMatches r (parseIP ip.data) = false := by
      unfold rangeMatches
      rw [hnet, hnil]
      exact ipNetContains_nil net nn m hnnm hpos
    rw [hfalse] at hm
    cases hm
  · rintro ⟨hnn, r, hr, hm⟩
    have : rs.any (fun r => rangeMatches r (parseIP ip.data)) = true :=
      List.any_eq_true.mpr ⟨r, hr, hm⟩
    rw [this]

/-- C4 witness: against the well-formed set {10.0.0.0/8, 192.168.0.0/16} the
check for 10.1.2.3 completes and its allow decision coincides with
membership in one of the ranges. -/
theorem allowlist_decides_membership_witness :
    (isAllowedIP "10.1.2.3" ["10.0.0.0/8", "192.168.0.0/16"]).isSome ∧
    (isAllowedIP "10.1.2.3" ["10.0.0.0/8", "192.168.0.0/16"] = some true ↔
      parseIP "10.1.2.3".data ≠ [] ∧
      ∃ r ∈ ["10.0.0.0/8", "192.168.0.0/16"],
        rangeMatches r (parseIP "10.1.2.3".data) = true) :=
  allowlist_decides_membership "10.1.2.3" ["10.0.0.0/8", "192.168.0.0/16"]
    (by decide)

end LockfileServer
